import Mathlib

/-!
Verification of the agent runtime of `implementations/07_agent_skills`
(`main.py` and `agent_utils.py`): the structured-output loop (`Agent.run`),
the tool registry, the parallel tool dispatcher, session compaction and the
skill registry.  External boundaries (the OpenAI chat-completion call, the
pydantic JSON validators) are modelled as explicit function parameters; the
Python code itself is embedded shallowly below, definition by definition.
-/

namespace AgentRuntime

/-- Token-usage counters reported by the model provider.  Only
`prompt_tokens` is consumed by the runtime (`Agent._is_over_limit`). -/
structure Usage where
  prompt_tokens : Nat
deriving Repr, DecidableEq

/-- One role-tagged conversation entry, the `dict(role=..., content=...)`
values stored in `Session._messages`. -/
structure Msg where
  role : String
  content : String
deriving Repr, DecidableEq

/-- Embedding of `agent_utils.Session`: an id plus the ordered message
list.  `get_messages` returns a copy in Python; in the pure embedding the
list itself is the snapshot. -/
structure Session where
  id : String := ""
  messages : List Msg := []
deriving Repr, DecidableEq

/-- Embedding of `Session.add_message`. -/
def Session.add_message (s : Session) (role content : String) : Session :=
  { s with messages := s.messages ++ [⟨role, content⟩] }

/-- Embedding of `Session.set_messages`. -/
def Session.set_messages (s : Session) (ms : List Msg) : Session :=
  { s with messages := ms }

/-- Embedding of `Session.get_messages`. -/
def Session.get_messages (s : Session) : List Msg :=
  s.messages

/-- The validated keyword-argument dictionary a pydantic parameter model
produces (`parameters_obj.model_dump()`), passed to the handler as
`**parameters_dict`. -/
abbrev ParamsDict : Type := List (String × String)

/-- Embedding of `agent_utils.Tool`.  `validate` is the pydantic boundary
`parameters.model_validate_json` followed by `model_dump` (an exception
becomes `.error`); `function` is the wrapped handler, whose Python
exceptions likewise become `.error`; its `.ok` value is already coerced to
a string (the `str(tool_response)` in `Tool.execute`).  `parameters_schema`
stands for `parameters.model_json_schema()`. -/
structure Tool where
  name : String
  description : String
  validate : String → Except String ParamsDict
  function : ParamsDict → Except String String
  parameters_schema : String

/-- The `{name, description, parameters}` dictionary built by
`Tool.to_schema`. -/
structure ToolSchema where
  name : String
  description : String
  parameters : String
deriving Repr, DecidableEq

/-- Embedding of `Tool.to_schema`. -/
def Tool.to_schema (t : Tool) : ToolSchema :=
  { name := t.name, description := t.description, parameters := t.parameters_schema }

/-- Embedding of `Tool.execute`: validate the parameter string; on
validation failure return the "Invalid tool call parameters" string without
touching the handler; on handler failure return the "Tool call failed"
string; otherwise the stringified handler result. -/
def Tool.execute (t : Tool) (parameters_str : String) : String :=
  match t.validate parameters_str with
  | .error e => "Invalid tool call parameters: " ++ e
  | .ok parameters_dict =>
    match t.function parameters_dict with
    | .error e => "Tool call failed: " ++ e
    | .ok tool_response => tool_response

/-- Embedding of `agent_utils.ToolRegistry`: the `_tools` dict, as an
association list whose keys stay pairwise distinct (Python dict
semantics). -/
structure ToolRegistry where
  tools : List (String × Tool) := []

/-- Python dict assignment `d[key] = v`: replace in place when the key
exists, append otherwise. -/
def dictUpdate {α : Type} (ts : List (String × α)) (key : String) (v : α) :
    List (String × α) :=
  if ts.any (fun p => p.1 = key) then
    ts.map (fun p => if p.1 = key then (key, v) else p)
  else
    ts ++ [(key, v)]

/-- Embedding of `ToolRegistry.register` (the dict assignment
`self._tools[tool.name] = tool`). -/
def ToolRegistry.register (r : ToolRegistry) (t : Tool) : ToolRegistry :=
  { tools := dictUpdate r.tools t.name t }

/-- Dict lookup `self._tools[name]` (keys are distinct, so the first match
is the entry). -/
def ToolRegistry.find (r : ToolRegistry) (name : String) : Option Tool :=
  (r.tools.find? (fun p => p.1 = name)).map Prod.snd

/-- Embedding of `ToolRegistry.execute`: dispatch to the named tool, or
return the "not registered" string result. -/
def ToolRegistry.execute (r : ToolRegistry) (name : String) (parameters : String) : String :=
  match r.find name with
  | some t => t.execute parameters
  | none => "Tool '" ++ name ++ "' not registered"

/-- Embedding of `ToolRegistry.to_schemas`: iterate `sorted(self._tools)`
(the keys in lexicographic order) and emit each tool's schema. -/
def ToolRegistry.to_schemas (r : ToolRegistry) : List ToolSchema :=
  ((r.tools.map Prod.fst).insertionSort (· ≤ ·)).filterMap
    (fun tool_name => (r.find tool_name).map Tool.to_schema)

/-- Embedding of `agent_utils.ToolCall` (model-emitted). -/
structure ToolCall where
  id : String
  name : String
  parameters : String
deriving Repr, DecidableEq

/-- Embedding of `agent_utils.Message` (model-emitted). -/
structure Message where
  text : String
deriving Repr, DecidableEq

/-- One item of `LLMOutput.content`: either a message or a tool call. -/
inductive ResponseItem where
  | message (m : Message)
  | tool_call (tc : ToolCall)
deriving Repr, DecidableEq

/-- Embedding of `agent_utils.LLMOutput`. -/
structure LLMOutput where
  content : List ResponseItem
deriving Repr, DecidableEq

/-- The `returned_tool_calls` comprehension in `Agent.run`: the items of
`content` that are `ToolCall`s, in order. -/
def LLMOutput.returned_tool_calls (o : LLMOutput) : List ToolCall :=
  o.content.filterMap (fun item =>
    match item with
    | .tool_call tc => some tc
    | .message _ => none)

/-- The `returned_messages` comprehension in `Agent.run`: the items of
`content` that are `Message`s, in order. -/
def LLMOutput.returned_messages (o : LLMOutput) : List Message :=
  o.content.filterMap (fun item =>
    match item with
    | .message m => some m
    | .tool_call _ => none)

/-- One entry of the `tool_call_results` list assembled by
`Agent._execute_tools_parallel`: the originating call's `id` paired with
the registry's result string. -/
structure ToolCallResult where
  id : String
  result : String
deriving Repr, DecidableEq

/-- The external boundaries of the runtime: `call` is the OpenAI
chat-completion request made by `Agent._call_llm` (message list in,
response text and usage out); `parse` is the pydantic boundary
`LLMOutput.model_validate_json` (an exception becomes `.error`); `schedule`
resolves the nondeterministic `as_completed` completion order of a batch of
futures (the dispatcher's correctness is proved for every permutation). -/
structure ModelEnv where
  call : List Msg → String × Usage
  parse : String → Except String LLMOutput
  schedule : List ToolCall → List ToolCall

/-- Python `repr` of one history dict, used when the compaction prompt
interpolates `session_messages` into an f-string. -/
def Msg.repr (m : Msg) : String :=
  "\x7b'role': '" ++ m.role ++ "', 'content': '" ++ m.content ++ "'\x7d"

/-- Python `repr` of the history list interpolated by f-strings. -/
def reprMessages (ms : List Msg) : String :=
  "[" ++ String.intercalate ", " (ms.map Msg.repr) ++ "]"

/-- Rendering of one result entry inside the `json.dumps` of
`tool_call_results`. -/
def ToolCallResult.dumps (r : ToolCallResult) : String :=
  "\x7b\"id\": \"" ++ r.id ++ "\", \"result\": \"" ++ r.result ++ "\"\x7d"

/-- The `json.dumps(tool_call_results, indent=2)` serialization (the exact
whitespace of `indent=2` is immaterial to every claim). -/
def dumpsResults (rs : List ToolCallResult) : String :=
  "[" ++ String.intercalate ", " (rs.map ToolCallResult.dumps) ++ "]"

/-- Stands for the `LLMOutput.model_json_schema()` text interpolated into
the system prompt (produced by pydantic, outside the embedded code). -/
def llmOutputModelJsonSchema : String :=
  "LLMOutput.model_json_schema()"

/-- The `json.dumps(self._tool_registry.to_schemas(), indent=2)` text. -/
def ToolSchema.dumps (s : ToolSchema) : String :=
  "\x7b\"name\": \"" ++ s.name ++ "\", \"description\": \"" ++ s.description ++
    "\", \"parameters\": " ++ s.parameters ++ "\x7d"

/-- Serialization of the schema list for the system prompt. -/
def dumpsSchemas (ss : List ToolSchema) : String :=
  "[" ++ String.intercalate ", " (ss.map ToolSchema.dumps) ++ "]"

/-- Embedding of the `Agent` object state set up by `Agent.__init__` (the
OpenAI client lives in `ModelEnv`). -/
structure Agent where
  tool_registry : ToolRegistry
  model : String := "gpt-5.2"
  max_steps : Nat := 10
  max_prompt_tokens : Nat := 100000

/-- Embedding of `Agent._build_system_prompt`. -/
def Agent.build_system_prompt (a : Agent) : String :=
  "You are provided the following tools to use:\n" ++
    dumpsSchemas a.tool_registry.to_schemas ++
    "\n\nPlease return your response in the following format:\n" ++
    llmOutputModelJsonSchema ++ "\n\nRETURN ONLY THE JSON."

/-- Embedding of `Agent._build_messages`: the developer turn holding the
system prompt, then the session history snapshot. -/
def Agent.build_messages (a : Agent) (session : Session) : List Msg :=
  ⟨"developer", a.build_system_prompt⟩ :: session.get_messages

/-- Embedding of `Agent._is_over_limit`. -/
def Agent.is_over_limit (a : Agent) (usage : Usage) : Bool :=
  usage.prompt_tokens ≥ a.max_prompt_tokens

/-- The single user turn sent by `Agent._compact_session` to the isolated
summarization call. -/
def compactionPrompt (session_messages : List Msg) : String :=
  "Session history: " ++ reprMessages session_messages ++
    "\n\nSummarize the session history into a compact one. Return the compact history only."

/-- Embedding of `Agent._compact_session`: one isolated model call over
the serialized history, then `set_messages` to the single synthetic user
turn wrapping the summary. -/
def Agent.compact_session (env : ModelEnv) (_a : Agent) (session : Session) : Session :=
  let session_messages := session.get_messages
  let compact_messages := (env.call [⟨"user", compactionPrompt session_messages⟩]).1
  session.set_messages [⟨"user", "[COMPACT SESSION HISTORY]: " ++ compact_messages⟩]

/-- The result list assembled by `Agent._execute_tools_parallel`, given
the order in which `as_completed` yields the futures: each completed call
contributes `{"id": call.id, "result": registry.execute(...)}`. -/
def executeToolsInOrder (r : ToolRegistry) (completion_order : List ToolCall) :
    List ToolCallResult :=
  completion_order.map (fun tc => ⟨tc.id, r.execute tc.name tc.parameters⟩)

/-- The string `Agent._execute_tools_parallel` returns. -/
def Agent.execute_tools_parallel (a : Agent) (env : ModelEnv) (tool_calls : List ToolCall) :
    String :=
  "Tool call results: " ++ dumpsResults (executeToolsInOrder a.tool_registry (env.schedule tool_calls))

/-- The outcome of one iteration of the `for step in range(self.max_steps)`
loop body: either the loop continues with a mutated session (`next`, with
`dispatched` recording whether `_execute_tools_parallel` ran), or the run
returns (`done`). -/
inductive StepResult where
  | next (session : Session) (dispatched : Bool)
  | done (result : String)

/-- One iteration of the loop body of `Agent.run`: call the model, compact
for the next iteration if the reported usage is at or over the limit,
append the raw output as an assistant turn, then either feed a diagnostic
back (parse failure), dispatch the tool calls and feed the results back, or
return the newline-joined message texts (no tool calls). -/
def Agent.step (env : ModelEnv) (a : Agent) (session : Session) : StepResult :=
  let r := env.call (a.build_messages session)
  let llm_output := r.1
  let usage := r.2
  let session := if a.is_over_limit usage then a.compact_session env session else session
  let session := session.add_message "assistant" llm_output
  match env.parse llm_output with
  | .error e =>
      .next (session.add_message "user" ("Invalid response format: " ++ e)) false
  | .ok response =>
      if response.returned_tool_calls.isEmpty then
        .done (String.intercalate "\n" (response.returned_messages.map Message.text))
      else
        .next (session.add_message "user" (a.execute_tools_parallel env response.returned_tool_calls)) true

/-- The step loop of `Agent.run`, instrumented with the number of executed
loop iterations (each makes exactly one main model call) and the number of
`_execute_tools_parallel` dispatches; exhausting the range returns the
sentinel. -/
def Agent.runLoop (env : ModelEnv) (a : Agent) :
    Nat → Session → String × Nat × Nat
  | 0, _ => ("Max step reached", 0, 0)
  | n + 1, session =>
    match a.step env session with
    | .done result => (result, 1, 0)
    | .next session' dispatched =>
      let rest := a.runLoop env n session'
      (rest.1, rest.2.1 + 1, rest.2.2 + (if dispatched then 1 else 0))

/-- Embedding of `Agent.run` together with its step and dispatch counts:
prime the session with the user query, then loop up to `max_steps`
times. -/
def Agent.runCount (env : ModelEnv) (a : Agent) (user_query : String)
    (session : Session) : String × Nat × Nat :=
  a.runLoop env a.max_steps (session.add_message "user" user_query)

/-- Embedding of `Agent.run` (its return value). -/
def Agent.run (env : ModelEnv) (a : Agent) (user_query : String)
    (session : Session) : String :=
  (a.runCount env user_query session).1

/-- Embedding of `main.Skill` (parsed from a `SKILL.md` file). -/
structure Skill where
  name : String
  description : String
  content : String
deriving Repr, DecidableEq

/-- The outcome of scanning one `*/SKILL.md` file in
`SkillRegistry.register`: `some skill` when the frontmatter regex matched
and the YAML header yielded name and description, `none` when the regex
failed to match or parsing raised (the file is skipped with a printed
warning, never fatally). -/
abbrev SkillScan : Type := List (Option Skill)

/-- Embedding of `main.SkillRegistry`: the `_skills` dict. -/
structure SkillRegistry where
  skills : List (String × Skill) := []
deriving Repr, DecidableEq

/-- Embedding of `SkillRegistry.register` over the outcomes of one
directory scan: each successfully parsed skill is stored under its name
(`self._skills[skill.name] = skill`, last write wins), failures are
skipped. -/
def SkillRegistry.registerScan (sr : SkillRegistry) (scan : SkillScan) : SkillRegistry :=
  { skills :=
      scan.foldl
        (fun m outcome =>
          match outcome with
          | some sk => dictUpdate m sk.name sk
          | none => m)
        sr.skills }

/-- Embedding of `SkillRegistry.__init__` on a directory whose scan yields
`scan`. -/
def SkillRegistry.ofScan (scan : SkillScan) : SkillRegistry :=
  SkillRegistry.registerScan {} scan

/-- Embedding of the `SkillRegistry.num_skills` property. -/
def SkillRegistry.num_skills (sr : SkillRegistry) : Nat :=
  sr.skills.length

/-- Dict lookup `self._skills.get(skill_name)`. -/
def SkillRegistry.find (sr : SkillRegistry) (name : String) : Option Skill :=
  (sr.skills.find? (fun p => p.1 = name)).map Prod.snd

/-- Embedding of `SkillRegistry._get_load_skill_doc`. -/
def SkillRegistry.get_load_skill_doc (sr : SkillRegistry) : String :=
  "Load a skill. A skill describes what to do when certain scenarios are met. The available skills are:\n" ++
    String.join (sr.skills.map (fun p => "\n\n## Skill: " ++ p.2.name ++ "\n" ++ p.2.description))

/-- Python `repr` of `list(self._skills.keys())`. -/
def reprKeys (keys : List String) : String :=
  "[" ++ String.intercalate ", " (keys.map (fun k => "'" ++ k ++ "'")) ++ "]"

/-- Embedding of `SkillRegistry.create_load_skill_tool`.  The pydantic
validator of `LoadSkillParameters` is an external boundary and is passed in
as `validateLS`; the wrapped closure returns the skill's content, or raises
(here `.error`) the "Skill ... not found" message for an unknown name. -/
def SkillRegistry.create_load_skill_tool (sr : SkillRegistry)
    (validateLS : String → Except String ParamsDict) : Tool :=
  { name := "load_skill"
    description := sr.get_load_skill_doc
    validate := validateLS
    function := fun params =>
      match List.lookup "skill_name" params with
      | some skill_name =>
        match sr.find skill_name with
        | some sk => .ok sk.content
        | none =>
          .error ("Skill " ++ skill_name ++ " not found. Available skills: " ++
            reprKeys (sr.skills.map Prod.fst))
      | none => .error "load_skill() missing 1 required positional argument: 'skill_name'"
    parameters_schema := "LoadSkillParameters.model_json_schema()" }

/-- Embedding of the registry construction in `Agent.__init__`: register
the user-supplied tools in order; then, when a skill directory was given
and its scan produced at least one skill, register the single `load_skill`
tool. -/
def Agent.initRegistry (validateLS : String → Except String ParamsDict)
    (tools : List Tool) (skill_scan : Option SkillScan) : ToolRegistry :=
  let r := tools.foldl ToolRegistry.register {}
  match skill_scan with
  | none => r
  | some scan =>
    let skill_register := SkillRegistry.ofScan scan
    if skill_register.num_skills ≠ 0 then
      r.register (skill_register.create_load_skill_tool validateLS)
    else
      r

/-! Theorems about the embedded runtime. -/

/-- C4: `Tool.execute` never propagates a failure and has exactly two
failure conversions: a parameter string that fails schema validation
yields the string "Invalid tool call parameters: <detail>" and the handler
is never executed (the result is the same for every handler); a handler
that raises yields the string "Tool call failed: <detail>"; a successful
handler's stringified value is returned as is.  Each conversion concerns
that single call only. -/
theorem tool_execute_failure_conversions (t : Tool) (p : String) :
    (∀ e, t.validate p = .error e →
      t.execute p = "Invalid tool call parameters: " ++ e ∧
      ∀ f : ParamsDict → Except String String,
        Tool.execute { t with function := f } p = "Invalid tool call parameters: " ++ e) ∧
    (∀ d e, t.validate p = .ok d → t.function d = .error e →
      t.execute p = "Tool call failed: " ++ e) ∧
    (∀ d v, t.validate p = .ok d → t.function d = .ok v → t.execute p = v) := by
  refine ⟨fun e he => ⟨?_, fun f => ?_⟩, fun d e hd he => ?_, fun d v hd hv => ?_⟩
  · simp [Tool.execute, he]
  · simp [Tool.execute, he]
  · simp [Tool.execute, hd, he]
  · simp [Tool.execute, hd, hv]

/-- A tool whose validator always rejects, used to witness the
validation-failure conversion. -/
def rejectingTool : Tool :=
  { name := "demo"
    description := "demo"
    validate := fun _ => .error "boom"
    function := fun _ => .ok "never"
    parameters_schema := "" }

/-- Witness for C4 at a concrete tool and parameter string. -/
theorem tool_execute_failure_conversions_witness :
    rejectingTool.execute "x" = "Invalid tool call parameters: boom" :=
  ((tool_execute_failure_conversions rejectingTool "x").1 "boom" rfl).1

/-- C8: immediately after `_compact_session` returns, the session's
history length is exactly 1, and that single entry is a synthetic
user-role turn wrapping the summary produced by the isolated summarization
model call over the prior history. -/
theorem compact_session_single_user_turn (env : ModelEnv) (a : Agent) (s : Session) :
    (a.compact_session env s).messages.length = 1 ∧
    (a.compact_session env s).messages =
      [⟨"user", "[COMPACT SESSION HISTORY]: " ++
        (env.call [⟨"user", compactionPrompt s.get_messages⟩]).1⟩] :=
  ⟨rfl, rfl⟩

/-- The session produced by the schema-validation-failure branch of the
loop body: the (possibly compacted) history, then the malformed output as
an assistant turn, then the diagnostic as a user turn. -/
def afterInvalidOutput (env : ModelEnv) (a : Agent) (s : Session)
    (out e : String) (usage : Usage) : Session :=
  ((if a.is_over_limit usage then a.compact_session env s else s).add_message
      "assistant" out).add_message "user" ("Invalid response format: " ++ e)

/-- C5: when the model's raw output fails schema validation, `Agent.run`
does not abort: the step appends the malformed output as an assistant turn
and the diagnostic error message as a user turn, performs no dispatch, and
the loop retries within the same step-count budget — the fix-up consumes
exactly one of the allotted steps, and no bound other than the remaining
step budget governs the retry. -/
theorem invalid_output_feedback (env : ModelEnv) (a : Agent) (s : Session)
    (out : String) (usage : Usage) (e : String)
    (hcall : env.call (a.build_messages s) = (out, usage))
    (hparse : env.parse out = .error e) :
    a.step env s = .next (afterInvalidOutput env a s out e usage) false ∧
    ∀ n, a.runLoop env (n + 1) s =
      ((a.runLoop env n (afterInvalidOutput env a s out e usage)).1,
       (a.runLoop env n (afterInvalidOutput env a s out e usage)).2.1 + 1,
       (a.runLoop env n (afterInvalidOutput env a s out e usage)).2.2) := by
  have hstep : a.step env s = .next (afterInvalidOutput env a s out e usage) false := by
    simp [Agent.step, hcall, hparse, afterInvalidOutput]
  refine ⟨hstep, fun n => ?_⟩
  simp [Agent.runLoop, hstep]

/-- A model environment whose output never validates, used to witness
C5. -/
def parseFailEnv : ModelEnv :=
  { call := fun _ => ("bad output", ⟨0⟩)
    parse := fun _ => .error "boom"
    schedule := fun tcs => tcs }

/-- An agent over an empty tool registry with the default configuration of
`Agent.__init__`. -/
def demoAgent : Agent :=
  { tool_registry := {} }

/-- Witness for C5 at a concrete environment and empty session. -/
theorem invalid_output_feedback_witness :
    demoAgent.step parseFailEnv { id := "", messages := [] } =
      .next { id := "", messages := [⟨"assistant", "bad output"⟩,
        ⟨"user", "Invalid response format: boom"⟩] } false := by
  have h := invalid_output_feedback parseFailEnv demoAgent { id := "", messages := [] }
    "bad output" ⟨0⟩ "boom" rfl rfl
  simpa [afterInvalidOutput, Session.add_message, demoAgent, parseFailEnv,
    Agent.is_over_limit, Agent.compact_session] using h.1

/-- C7: when a step's model call reports usage at or over the limit, the
triggering response is still delivered and recorded: if it parses with no
tool calls the step returns its newline-joined message texts, and whenever
the loop continues, the new session history is the compacted history
followed by the assistant turn holding the triggering output (plus the one
fed-back user turn), so compaction only affects the history used for the
next model call (the triggering call itself consumed the uncompacted
history, per `hcall`). -/
theorem overlimit_triggering_response_recorded (env : ModelEnv) (a : Agent)
    (s : Session) (out : String) (usage : Usage)
    (hcall : env.call (a.build_messages s) = (out, usage))
    (hover : a.is_over_limit usage = true) :
    (∀ resp, env.parse out = .ok resp → resp.returned_tool_calls = [] →
      a.step env s =
        .done (String.intercalate "\n" (resp.returned_messages.map Message.text))) ∧
    (∀ s' d, a.step env s = .next s' d →
      ∃ c, s'.messages =
        (a.compact_session env s).messages ++ [⟨"assistant", out⟩, ⟨"user", c⟩]) := by
  constructor
  · intro resp hp hn
    simp [Agent.step, hcall, hover, hp, hn]
  · intro s' d h
    simp only [Agent.step, hcall, hover, if_true] at h
    cases hp : env.parse out with
    | error e =>
      simp only [hp] at h
      cases h
      exact ⟨"Invalid response format: " ++ e, by simp [Session.add_message]⟩
    | ok resp =>
      simp only [hp] at h
      by_cases hemp : resp.returned_tool_calls.isEmpty
      · simp [hemp] at h
      · simp only [hemp, Bool.false_eq_true, if_false] at h
        cases h
        exact ⟨a.execute_tools_parallel env resp.returned_tool_calls,
          by simp [Session.add_message]⟩

/-- A model environment that reports over-limit usage and a final
message-only response, used to witness C7. -/
def overLimitEnv : ModelEnv :=
  { call := fun _ => ("final out", ⟨200000⟩)
    parse := fun _ => .ok ⟨[.message ⟨"hi"⟩]⟩
    schedule := fun tcs => tcs }

/-- Witness for C7 at a concrete over-limit environment. -/
theorem overlimit_triggering_response_recorded_witness :
    demoAgent.step overLimitEnv { id := "", messages := [] } = .done "hi" := by
  have h := overlimit_triggering_response_recorded overLimitEnv demoAgent
    { id := "", messages := [] } "final out" ⟨200000⟩ rfl (by decide)
  simpa [LLMOutput.returned_tool_calls, LLMOutput.returned_messages] using
    h.1 ⟨[.message ⟨"hi"⟩]⟩ rfl (by decide)

/-- C1 (amended): for every schema-valid model output with zero tool
calls, `Agent.run` terminates on that step — the loop executes exactly one
iteration, hence one main model call and no dispatches — and returns the
message texts of that output joined in order with newlines. -/
theorem zero_tool_calls_terminal (env : ModelEnv) (a : Agent) (q : String)
    (s : Session) (out : String) (usage : Usage) (resp : LLMOutput)
    (hsteps : 1 ≤ a.max_steps)
    (hcall : env.call (a.build_messages (s.add_message "user" q)) = (out, usage))
    (hparse : env.parse out = .ok resp)
    (hnotc : resp.returned_tool_calls = []) :
    a.runCount env q s =
      (String.intercalate "\n" (resp.returned_messages.map Message.text), 1, 0) := by
  obtain ⟨m, hm⟩ := Nat.exists_eq_add_of_le hsteps
  rw [Nat.add_comm] at hm
  have hstep : a.step env (s.add_message "user" q) =
      .done (String.intercalate "\n" (resp.returned_messages.map Message.text)) := by
    simp [Agent.step, hcall, hparse, hnotc]
  simp [Agent.runCount, hm, Agent.runLoop, hstep]

/-- A model environment whose response is a single final message, used to
witness C1. -/
def oneMessageEnv : ModelEnv :=
  { call := fun _ => ("raw", ⟨0⟩)
    parse := fun _ => .ok ⟨[.message ⟨"hello"⟩]⟩
    schedule := fun tcs => tcs }

/-- Witness for C1 at a concrete environment. -/
theorem zero_tool_calls_terminal_witness :
    demoAgent.runCount oneMessageEnv "q" { id := "", messages := [] } = ("hello", 1, 0) := by
  have h := zero_tool_calls_terminal oneMessageEnv demoAgent "q"
    { id := "", messages := [] } "raw" ⟨0⟩ ⟨[.message ⟨"hello"⟩]⟩
    (by decide) rfl rfl (by decide)
  simpa [LLMOutput.returned_messages] using h

/-- A model environment whose final output holds two messages, exhibiting
the newline separator `"\n".join` inserts between message texts. -/
def twoMessageEnv : ModelEnv :=
  { call := fun _ => ("raw", ⟨0⟩)
    parse := fun _ => .ok ⟨[.message ⟨"a"⟩, .message ⟨"b"⟩]⟩
    schedule := fun tcs => tcs }

/-- Counterexample to C1 as stated: on a schema-valid output whose content
is the two messages "a" and "b" (and no tool calls), `Agent.run` returns
"a\nb", not the concatenation "ab" of the message texts. -/
theorem zero_tool_calls_concatenation_counterexample :
    demoAgent.run twoMessageEnv "q" { id := "", messages := [] } = "a\nb" ∧
    ("a\nb" : String) ≠ "a" ++ "b" :=
  ⟨rfl, by decide⟩

/-- C2 (amended): for every k, an Agent configured with `max_steps = k`,
run against a model whose every response is schema-valid and requests at
least one tool call, terminates after exactly k loop iterations (each
making one main model call and one dispatch) and returns the degraded
sentinel string "Max step reached" — never more steps, and never a failure
value distinct from that sentinel. -/
theorem step_exhaustion (env : ModelEnv) (a : Agent) (q : String) (s : Session)
    (k : Nat) (hk : a.max_steps = k) (hk1 : 1 ≤ k)
    (hmodel : ∀ ms : List Msg, ∃ resp : LLMOutput,
      env.parse (env.call ms).1 = .ok resp ∧ resp.returned_tool_calls ≠ []) :
    a.runCount env q s = ("Max step reached", k, k) := by
  have key : ∀ (n : Nat) (s' : Session),
      a.runLoop env n s' = ("Max step reached", n, n) := by
    intro n
    induction n with
    | zero => intro s'; rfl
    | succ m ih =>
      intro s'
      obtain ⟨resp, hp, htc⟩ := hmodel (a.build_messages s')
      have hstep : a.step env s' =
          .next (((if a.is_over_limit (env.call (a.build_messages s')).2 then
              a.compact_session env s' else s').add_message "assistant"
                (env.call (a.build_messages s')).1).add_message "user"
              (a.execute_tools_parallel env resp.returned_tool_calls)) true := by
        have hemp : resp.returned_tool_calls.isEmpty = false := by
          simpa [List.isEmpty_iff] using htc
        simp [Agent.step, hp, hemp]
      simp [Agent.runLoop, hstep, ih]
  have := hk1
  simp [Agent.runCount, hk, key]

/-- A model environment whose every response requests one tool call, used
to witness C2 and to exhibit the sentinel's exact spelling. -/
def alwaysToolCallEnv : ModelEnv :=
  { call := fun _ => ("raw", ⟨0⟩)
    parse := fun _ => .ok ⟨[.tool_call ⟨"1", "t", "p"⟩]⟩
    schedule := fun tcs => tcs }

/-- An agent with `max_steps = 1` over an empty registry. -/
def oneStepAgent : Agent :=
  { tool_registry := {}, max_steps := 1 }

/-- Witness for C2 at a concrete always-tool-calling environment with
`max_steps = 1`. -/
theorem step_exhaustion_witness :
    oneStepAgent.runCount alwaysToolCallEnv "q" { id := "", messages := [] } =
      ("Max step reached", 1, 1) :=
  step_exhaustion alwaysToolCallEnv oneStepAgent "q" { id := "", messages := [] } 1
    rfl (by decide) (fun _ => ⟨⟨[.tool_call ⟨"1", "t", "p"⟩]⟩, rfl, by decide⟩)

/-- Counterexample to C2 as stated: the sentinel the code returns on step
exhaustion is the string "Max step reached", not "max steps reached". -/
theorem step_exhaustion_sentinel_counterexample :
    oneStepAgent.run alwaysToolCallEnv "q" { id := "", messages := [] } =
      "Max step reached" ∧
    ("Max step reached" : String) ≠ "max steps reached" :=
  ⟨rfl, by decide⟩

/-- Every `done` outcome of the loop body is the newline-joined message
texts of a schema-valid, zero-tool-call model response. -/
theorem step_done_characterization (env : ModelEnv) (a : Agent) (s : Session)
    (res : String) (h : a.step env s = .done res) :
    ∃ resp : LLMOutput,
      env.parse (env.call (a.build_messages s)).1 = .ok resp ∧
      resp.returned_tool_calls = [] ∧
      res = String.intercalate "\n" (resp.returned_messages.map Message.text) := by
  simp only [Agent.step] at h
  cases hp : env.parse (env.call (a.build_messages s)).1 with
  | error e => simp [hp] at h
  | ok resp =>
    simp only [hp] at h
    by_cases hemp : resp.returned_tool_calls.isEmpty
    · refine ⟨resp, rfl, List.isEmpty_iff.mp hemp, ?_⟩
      simp only [hemp, if_true] at h
      cases h
      rfl
    · simp [hemp] at h

/-- C6: no failure propagates out of `Agent.run`.  Requesting an
unregistered tool name makes `ToolRegistry.execute` return the string
"Tool '<name>' not registered" rather than fail, and for every total model
environment, `Agent.run` resolves to one of the two defined terminal
values: the max-steps sentinel, or the newline-joined message texts of a
schema-valid zero-tool-call response; every other failure mode was fed
back into the conversation along the way. -/
theorem no_failure_propagates :
    (∀ (r : ToolRegistry) (name p : String), r.find name = none →
      r.execute name p = "Tool '" ++ name ++ "' not registered") ∧
    (∀ (env : ModelEnv) (a : Agent) (q : String) (s : Session),
      a.run env q s = "Max step reached" ∨
      ∃ (hist : Session) (resp : LLMOutput),
        env.parse (env.call (a.build_messages hist)).1 = .ok resp ∧
        resp.returned_tool_calls = [] ∧
        a.run env q s =
          String.intercalate "\n" (resp.returned_messages.map Message.text)) := by
  constructor
  · intro r name p h
    simp [ToolRegistry.execute, h]
  · intro env a q s
    have key : ∀ (n : Nat) (s' : Session),
        (a.runLoop env n s').1 = "Max step reached" ∨
        ∃ (hist : Session) (resp : LLMOutput),
          env.parse (env.call (a.build_messages hist)).1 = .ok resp ∧
          resp.returned_tool_calls = [] ∧
          (a.runLoop env n s').1 =
            String.intercalate "\n" (resp.returned_messages.map Message.text) := by
      intro n
      induction n with
      | zero => intro s'; exact .inl rfl
      | succ m ih =>
        intro s'
        cases hstep : a.step env s' with
        | done res =>
          obtain ⟨resp, hp, hn, hres⟩ := step_done_characterization env a s' res hstep
          exact .inr ⟨s', resp, hp, hn, by simp [Agent.runLoop, hstep, hres]⟩
        | next s2 d =>
          have hrec := ih s2
          simpa [Agent.runLoop, hstep] using hrec
    simpa [Agent.run, Agent.runCount] using key a.max_steps (s.add_message "user" q)

/-- Witness for C6: looking up a name in the empty registry produces the
descriptive string result. -/
theorem no_failure_propagates_witness :
    ToolRegistry.execute {} "get_time" "p" = "Tool 'get_time' not registered" :=
  no_failure_propagates.1 {} "get_time" "p" rfl

/-- In a list of tool calls with pairwise-distinct ids, filtering by the
id of a member finds exactly that member. -/
theorem filter_id_eq_singleton (calls : List ToolCall) (tc : ToolCall)
    (hids : (calls.map ToolCall.id).Nodup) (htc : tc ∈ calls) :
    calls.filter (fun c => c.id == tc.id) = [tc] := by
  induction calls with
  | nil => cases htc
  | cons c rest ih =>
    simp only [List.map_cons, List.nodup_cons] at hids
    obtain ⟨hnotin, hnd⟩ := hids
    rcases List.mem_cons.mp htc with rfl | hmem
    · have hrest : rest.filter (fun c' => c'.id == tc.id) = [] := by
        rw [List.filter_eq_nil_iff]
        intro c' hc' hcid
        exact hnotin (by
          have h' : c'.id = tc.id := by simpa using hcid
          exact h' ▸ List.mem_map_of_mem ToolCall.id hc')
      simp [List.filter_cons, hrest]
    · have hne : (c.id == tc.id) = false := by
        apply beq_eq_false_iff_ne.mpr
        intro hEq
        exact hnotin (hEq ▸ List.mem_map_of_mem ToolCall.id hmem)
      simp [List.filter_cons, hne, ih hnd hmem]

/-- C3: for every batch of tool calls with pairwise-distinct ids and every
completion order (any permutation of the batch, as delivered by
`as_completed`), the dispatcher produces exactly as many results as calls,
and each call's id is correlated with exactly the result of executing that
call — even when every execution produced a failure string. -/
theorem dispatcher_correlation (r : ToolRegistry) (calls order : List ToolCall)
    (hperm : order.Perm calls) (hids : (calls.map ToolCall.id).Nodup) :
    (executeToolsInOrder r order).length = calls.length ∧
    ∀ tc ∈ calls,
      (executeToolsInOrder r order).filter (fun res => res.id == tc.id) =
        [⟨tc.id, r.execute tc.name tc.parameters⟩] := by
  constructor
  · simp [executeToolsInOrder, hperm.length_eq]
  · intro tc htc
    have h1 : (executeToolsInOrder r order).filter (fun res => res.id == tc.id) =
        (order.filter (fun c => c.id == tc.id)).map
          (fun c => (⟨c.id, r.execute c.name c.parameters⟩ : ToolCallResult)) := by
      simp only [executeToolsInOrder, List.filter_map]
      rfl
    have h2 : order.filter (fun c => c.id == tc.id) = [tc] := by
      have hp := hperm.filter (fun c => c.id == tc.id)
      rw [filter_id_eq_singleton calls tc hids htc] at hp
      exact List.perm_singleton.mp hp
    rw [h1, h2]
    rfl

/-- Witness for C3: two calls dispatched in reversed completion order
still correlate by id; with an empty registry both results are failure
strings and the result count still matches. -/
theorem dispatcher_correlation_witness :
    (executeToolsInOrder {} [⟨"2", "b", "q"⟩, ⟨"1", "a", "p"⟩]).length = 2 ∧
    (executeToolsInOrder {} [⟨"2", "b", "q"⟩, ⟨"1", "a", "p"⟩]).filter
        (fun res => res.id == "1") = [⟨"1", "Tool 'a' not registered"⟩] := by
  have h := dispatcher_correlation {} [⟨"1", "a", "p"⟩, ⟨"2", "b", "q"⟩]
    [⟨"2", "b", "q"⟩, ⟨"1", "a", "p"⟩] (by decide) (by decide)
  exact ⟨h.1, by simpa using h.2 ⟨"1", "a", "p"⟩ (by decide)⟩

/-- The invariant Python dict semantics maintain for `_tools`: keys are
pairwise distinct, and each tool is stored under its own name (the only
writer is `register`, which uses `tool.name` as the key). -/
def ToolRegistry.WF (r : ToolRegistry) : Prop :=
  (r.tools.map Prod.fst).Nodup ∧ ∀ p ∈ r.tools, p.2.name = p.1

/-- Replacing the value stored under a key leaves the key list
unchanged. -/
theorem keys_map_replace {α : Type} (ts : List (String × α)) (k : String) (v : α) :
    (ts.map (fun p => if p.1 = k then (k, v) else p)).map Prod.fst = ts.map Prod.fst := by
  induction ts with
  | nil => rfl
  | cons p rest ih => by_cases h : p.1 = k <;> simp [h, ih]

/-- The key list after a dict assignment. -/
theorem dictUpdate_keys {α : Type} (ts : List (String × α)) (k : String) (v : α) :
    (dictUpdate ts k v).map Prod.fst =
      if ts.any (fun p => p.1 = k) then ts.map Prod.fst else ts.map Prod.fst ++ [k] := by
  unfold dictUpdate
  split
  · exact keys_map_replace ts k v
  · simp

/-- `register` preserves the registry invariant. -/
theorem ToolRegistry.WF.register {r : ToolRegistry} (h : r.WF) (t : Tool) :
    (r.register t).WF := by
  obtain ⟨hnd, hkv⟩ := h
  constructor
  · rw [ToolRegistry.register, dictUpdate_keys]
    split
    · exact hnd
    · rename_i hany
      have hnotin : t.name ∉ r.tools.map Prod.fst := by
        intro hmem
        obtain ⟨p, hp, hpk⟩ := List.mem_map.mp hmem
        exact hany (List.any_eq_true.mpr ⟨p, hp, by simp [hpk]⟩)
      simp [List.nodup_append, hnd, hnotin]
  · intro p hp
    rw [ToolRegistry.register] at hp
    unfold dictUpdate at hp
    split at hp
    · obtain ⟨q, hq, hqe⟩ := List.mem_map.mp hp
      by_cases h : q.1 = t.name
      · rw [if_pos h] at hqe
        rw [← hqe]
      · rw [if_neg h] at hqe
        rw [← hqe]
        exact hkv q hq
    · rcases List.mem_append.mp hp with hmem | hmem
      · exact hkv p hmem
      · simp at hmem
        rw [hmem]

/-- The empty registry is well formed. -/
theorem ToolRegistry.WF_empty : ToolRegistry.WF {} :=
  ⟨List.nodup_nil, by simp⟩

/-- Registering a list of tools from a well-formed registry yields a
well-formed registry; in particular the registry `Agent.__init__` builds
is well formed. -/
theorem ToolRegistry.WF_foldl (tools : List Tool) (r : ToolRegistry) (h : r.WF) :
    (tools.foldl ToolRegistry.register r).WF := by
  induction tools generalizing r with
  | nil => exact h
  | cons t rest ih => exact ih _ (h.register t)

/-- Replacing the value under a present key makes lookup find the new
value. -/
theorem find?_replace_key {α : Type} (ts : List (String × α)) (k : String) (v : α)
    (hsome : ts.any (fun p => p.1 = k) = true) :
    (ts.map (fun p => if p.1 = k then (k, v) else p)).find? (fun p => p.1 = k) =
      some (k, v) := by
  induction ts with
  | nil => simp at hsome
  | cons p rest ih =>
    by_cases h : p.1 = k
    · simp [List.find?, h]
    · have hrest : rest.any (fun p => p.1 = k) = true := by
        rcases List.any_eq_true.mp hsome with ⟨q, hq, hqk⟩
        have hqk' : q.1 = k := of_decide_eq_true hqk
        rcases List.mem_cons.mp hq with rfl | hq2
        · exact absurd hqk' h
        · exact List.any_eq_true.mpr ⟨q, hq2, by simp [hqk']⟩
      simpa [List.find?, h] using ih hrest

/-- Appending an entry under an absent key makes lookup find it. -/
theorem find?_append_key {α : Type} (ts : List (String × α)) (k : String) (v : α)
    (hall : ∀ p ∈ ts, p.1 ≠ k) :
    (ts ++ [(k, v)]).find? (fun p => p.1 = k) = some (k, v) := by
  induction ts with
  | nil => simp [List.find?]
  | cons p rest ih =>
    have h := hall p (List.mem_cons_self p rest)
    simpa [List.find?, h] using ih (fun q hq => hall q (List.mem_cons_of_mem p hq))

/-- After a dict assignment, looking the key up finds the new value. -/
theorem find?_dictUpdate {α : Type} (ts : List (String × α)) (k : String) (v : α) :
    (dictUpdate ts k v).find? (fun p => p.1 = k) = some (k, v) := by
  unfold dictUpdate
  split
  · rename_i hany
    exact find?_replace_key ts k v hany
  · rename_i hany
    refine find?_append_key ts k v (fun p hp hpk => ?_)
    exact hany (List.any_eq_true.mpr ⟨p, hp, by simp [hpk]⟩)

/-- The most recently registered tool under a name is the one `find`
resolves. -/
theorem find_register_self (r : ToolRegistry) (t : Tool) :
    (r.register t).find t.name = some t := by
  rw [ToolRegistry.find, ToolRegistry.register, find?_dictUpdate]
  rfl

/-- The name of a freshly registered tool is among the registry keys. -/
theorem mem_keys_register_self (r : ToolRegistry) (t : Tool) :
    t.name ∈ (r.register t).tools.map Prod.fst := by
  rw [ToolRegistry.register, dictUpdate_keys]
  split
  · rename_i hany
    rcases List.any_eq_true.mp hany with ⟨p, hp, hpk⟩
    have : p.1 = t.name := by simpa using hpk
    exact this ▸ List.mem_map_of_mem Prod.fst hp
  · simp

/-- In a well-formed registry every key resolves to a tool bearing that
key as its name. -/
theorem find_of_mem_keys (r : ToolRegistry) (hWF : r.WF) (n : String)
    (hn : n ∈ r.tools.map Prod.fst) : ∃ t, r.find n = some t ∧ t.name = n := by
  obtain ⟨p, hp, rfl⟩ := List.mem_map.mp hn
  have hsome : (r.tools.find? (fun q => q.1 = p.1)).isSome := by
    rw [List.find?_isSome]
    exact ⟨p, hp, by simp⟩
  obtain ⟨q, hq⟩ := Option.isSome_iff_exists.mp hsome
  have hq1 : q.1 = p.1 := by simpa using List.find?_some hq
  have hqmem : q ∈ r.tools := List.mem_of_find?_eq_some hq
  exact ⟨q.2, by simp [ToolRegistry.find, hq], (hWF.2 q hqmem).trans hq1⟩

/-- In a well-formed registry the schema names are exactly the sorted key
list. -/
theorem to_schemas_names (r : ToolRegistry) (hWF : r.WF) :
    r.to_schemas.map ToolSchema.name =
      (r.tools.map Prod.fst).insertionSort (· ≤ ·) := by
  rw [ToolRegistry.to_schemas]
  have key : ∀ l : List String, (∀ n ∈ l, n ∈ r.tools.map Prod.fst) →
      (l.filterMap (fun tool_name => (r.find tool_name).map Tool.to_schema)).map
        ToolSchema.name = l := by
    intro l
    induction l with
    | nil => intro _; rfl
    | cons n rest ih =>
      intro hmem
      obtain ⟨t, hf, hn⟩ := find_of_mem_keys r hWF n (hmem n (List.mem_cons_self n rest))
      simp only [List.filterMap_cons, hf, Option.map_some]
      simp [Tool.to_schema, hn, ih (fun m hm => hmem m (List.mem_cons_of_mem n hm))]
  exact key _ (fun n hn => (List.mem_insertionSort _).mp hn)

/-- In a schema enumeration over keys that resolve to their own tools,
filtering by a key that is present exactly once isolates that key's
tool's schema. -/
theorem filter_keys_to_schema (r : ToolRegistry) (n : String) (t : Tool)
    (hfind : r.find n = some t) :
    ∀ l : List String, l.Nodup → n ∈ l →
      (∀ m ∈ l, ∃ tm, r.find m = some tm ∧ tm.name = m) →
      (l.filterMap (fun m => (r.find m).map Tool.to_schema)).filter
        (fun s => s.name == n) = [t.to_schema] := by
  intro l
  induction l with
  | nil => intro _ h; cases h
  | cons m rest ih =>
    intro hnd hmem hall
    obtain ⟨hmnotin, hndrest⟩ := List.nodup_cons.mp hnd
    obtain ⟨tm, hfm, hnm⟩ := hall m (List.mem_cons_self m rest)
    have hrestall : ∀ q ∈ rest, ∃ tq, r.find q = some tq ∧ tq.name = q :=
      fun q hq => hall q (List.mem_cons_of_mem m hq)
    simp only [List.filterMap_cons, hfm, Option.map_some']
    rcases List.mem_cons.mp hmem with rfl | hmem2
    · have htm : tm = t := by
        rw [hfm] at hfind
        exact Option.some.inj hfind
      subst htm
      have hrest : (rest.filterMap (fun m2 => (r.find m2).map Tool.to_schema)).filter
          (fun s => s.name == n) = [] := by
        rw [List.filter_eq_nil_iff]
        intro s hs
        obtain ⟨m2, hm2, hs2⟩ := List.mem_filterMap.mp hs
        obtain ⟨tm2, hfm2, hnm2⟩ := hrestall m2 hm2
        rw [hfm2] at hs2
        have hname2 : s.name = m2 := by
          rw [← Option.some.inj hs2]
          exact hnm2
        simp only [hname2, beq_iff_eq]
        intro h
        exact hmnotin (h ▸ hm2)
      rw [List.filter_cons_of_pos (by simp [Tool.to_schema, hnm]), hrest]
    · have hmn : m ≠ n := by
        intro h
        exact hmnotin (h ▸ hmem2)
      rw [List.filter_cons_of_neg (by simp [Tool.to_schema, hnm, hmn])]
      exact ih hndrest hmem2 hrestall

/-- C9: `ToolRegistry.to_schemas` lists each registered name exactly once
in lexicographic order, identical calls without intervening registration
agree, and after two same-name registrations the second tool is the one
`execute` dispatches to while schema enumeration lists the shared name
once — and the entry listed under it is the second tool's schema. -/
theorem to_schemas_deterministic_last_wins (r : ToolRegistry) (hWF : r.WF) :
    ((r.to_schemas.map ToolSchema.name).Sorted (· ≤ ·) ∧
      (r.to_schemas.map ToolSchema.name).Nodup ∧
      r.to_schemas = r.to_schemas) ∧
    ∀ t1 t2 p, t1.name = t2.name →
      ((r.register t1).register t2).execute t2.name p = t2.execute p ∧
      (((r.register t1).register t2).to_schemas.map ToolSchema.name).count t2.name = 1 ∧
      ((r.register t1).register t2).to_schemas.filter
        (fun s => s.name == t2.name) = [t2.to_schema] := by
  constructor
  · refine ⟨?_, ?_, rfl⟩
    · rw [to_schemas_names r hWF]
      exact List.sorted_insertionSort _ _
    · rw [to_schemas_names r hWF]
      exact ((List.perm_insertionSort _ _).nodup_iff).mpr hWF.1
  · intro t1 t2 p _
    have hWF2 : ((r.register t1).register t2).WF := (hWF.register t1).register t2
    refine ⟨?_, ?_, ?_⟩
    · rw [ToolRegistry.execute, find_register_self]
    · rw [to_schemas_names _ hWF2]
      rw [(List.perm_insertionSort (· ≤ ·) _).count_eq]
      exact List.count_eq_one_of_mem hWF2.1 (mem_keys_register_self _ t2)
    · rw [ToolRegistry.to_schemas]
      exact filter_keys_to_schema _ t2.name t2 (find_register_self _ t2) _
        (((List.perm_insertionSort _ _).nodup_iff).mpr hWF2.1)
        ((List.mem_insertionSort _).mpr (mem_keys_register_self _ t2))
        (fun m hm => find_of_mem_keys _ hWF2 m ((List.mem_insertionSort _).mp hm))

/-- Two distinct tools sharing the name "dup", used to witness C9. -/
def dupTool1 : Tool :=
  { name := "dup", description := "first", validate := fun _ => .error "n/a"
    function := fun _ => .ok "one", parameters_schema := "s1" }

/-- The second registration under the shared name. -/
def dupTool2 : Tool :=
  { name := "dup", description := "second", validate := fun _ => .error "n/a"
    function := fun _ => .ok "two", parameters_schema := "s2" }

/-- Witness for C9 at the empty registry and two same-name tools: the
second registration wins both dispatch and schema enumeration. -/
theorem to_schemas_deterministic_last_wins_witness :
    ((ToolRegistry.register (ToolRegistry.register {} dupTool1) dupTool2).execute
      "dup" "x" = dupTool2.execute "x") ∧
    (((ToolRegistry.register (ToolRegistry.register {} dupTool1) dupTool2).to_schemas.map
      ToolSchema.name).count "dup" = 1) ∧
    ((ToolRegistry.register (ToolRegistry.register {} dupTool1) dupTool2).to_schemas.filter
      (fun s => s.name == "dup") = [dupTool2.to_schema]) := by
  have h := (to_schemas_deterministic_last_wins {} ToolRegistry.WF_empty).2
    dupTool1 dupTool2 "x" rfl
  exact h

/-- C10: with no skill directory, or with a directory scan yielding zero
successfully parsed skills, `Agent.__init__` registers no `load_skill`
tool and the registry is exactly the one built from the user-supplied
tools; when at least one skill parses, exactly one `load_skill` tool is
added to that registry. -/
theorem init_registry_load_skill (validateLS : String → Except String ParamsDict)
    (tools : List Tool) :
    (Agent.initRegistry validateLS tools none = tools.foldl ToolRegistry.register {}) ∧
    (∀ scan : SkillScan, (SkillRegistry.ofScan scan).num_skills = 0 →
      Agent.initRegistry validateLS tools (some scan) =
        tools.foldl ToolRegistry.register {}) ∧
    (∀ scan : SkillScan, (SkillRegistry.ofScan scan).num_skills ≠ 0 →
      Agent.initRegistry validateLS tools (some scan) =
        (tools.foldl ToolRegistry.register {}).register
          ((SkillRegistry.ofScan scan).create_load_skill_tool validateLS) ∧
      ((Agent.initRegistry validateLS tools (some scan)).tools.map
        Prod.fst).count "load_skill" = 1) := by
  refine ⟨rfl, fun scan h0 => ?_, fun scan h1 => ?_⟩
  · simp [Agent.initRegistry, h0]
  · have heq : Agent.initRegistry validateLS tools (some scan) =
        (tools.foldl ToolRegistry.register {}).register
          ((SkillRegistry.ofScan scan).create_load_skill_tool validateLS) := by
      simp [Agent.initRegistry, h1]
    refine ⟨heq, ?_⟩
    rw [heq]
    have hWF : (tools.foldl ToolRegistry.register {}).WF :=
      ToolRegistry.WF_foldl tools {} ToolRegistry.WF_empty
    have hWF2 := hWF.register ((SkillRegistry.ofScan scan).create_load_skill_tool validateLS)
    have hmem := mem_keys_register_self (tools.foldl ToolRegistry.register {})
      ((SkillRegistry.ofScan scan).create_load_skill_tool validateLS)
    exact List.count_eq_one_of_mem hWF2.1 hmem

/-- Witness for C10: a scan with one malformed file and one parsed skill
puts exactly one `load_skill` entry into the otherwise empty registry. -/
theorem init_registry_load_skill_witness :
    ((Agent.initRegistry (fun s => .ok [("skill_name", s)]) []
        (some [none, some ⟨"sk", "d", "c"⟩])).tools.map Prod.fst).count "load_skill" = 1 := by
  have h := (init_registry_load_skill (fun s => .ok [("skill_name", s)]) []).2.2
    [none, some ⟨"sk", "d", "c"⟩] (by decide)
  exact h.2

end AgentRuntime
